import Mathlib

/-!
Verification development for the asset-tracker dashboard repository
(`asset_tracker.py`, `alpha_tracker.py`, `twelve_data_tracker.py`).

The price pipeline is embedded shallowly:
* a cell of a price table is `Option ℚ` — `none` models a pandas
  missing value (`NaN` / `pd.NA`), `some v` a finite float, held as a
  rational so arithmetic is exact;
* a date is a `ℕ` (days since an epoch; only ordering and equality of
  dates matter to the code under study);
* a table is either column-major (`PTable`, used for the ffill/trim and
  column-dropping steps, which act per column) or row-major (`RTable`,
  used for the realtime patch, which appends and updates rows);
* Python strings are modelled through their character lists, with
  hand-rolled, kernel-reducible versions of `upper`, `strip`,
  `split("-")`, `endswith` and the substring test, since the claims are
  settled by evaluating on concrete tickers.
-/

abbrev Cell := Option ℚ

/-- Forward-fill worker: `last` is the most recent non-missing value seen
so far (`none` before any value has been seen).  Mirrors the per-column
behaviour of `pandas.DataFrame.ffill()` used at `asset_tracker.py:261`. -/
def ffillAux : Cell → List Cell → List Cell
  | _, [] => []
  | last, x :: xs =>
    match x with
    | some v => some v :: ffillAux (some v) xs
    | none => last :: ffillAux last xs

/-- `pandas.DataFrame.ffill()` on one column (`asset_tracker.py:261`). -/
def ffill (xs : List Cell) : List Cell := ffillAux none xs

/-- The most recent non-missing value in a list of cells (`none` when every
cell is missing).  Specification-side device used to state the
forward-fill property. -/
def lastSome : List Cell → Cell
  | [] => none
  | x :: xs =>
    match lastSome xs with
    | some v => some v
    | none => x

/-- A column-major price table: a date index plus named columns.  A
well-formed table has every column of the same length as the index. -/
structure PTable where
  dates : List ℕ
  cols : List (String × List Cell)
  deriving DecidableEq, Repr

/-- Every column has as many cells as there are dates. -/
def PTable.wf (t : PTable) : Prop := ∀ c ∈ t.cols, c.2.length = t.dates.length

instance (t : PTable) : Decidable t.wf := by
  unfold PTable.wf; infer_instance

/-- Row-trim of one column: keep exactly the cells whose date is `≥ start`,
mirroring `combined[combined.index >= pd.to_datetime(start_date)]`
(`asset_tracker.py:262`) applied to a single column. -/
def trimCol (dates : List ℕ) (start : ℕ) (col : List Cell) : List Cell :=
  ((dates.zip col).filter (fun p => decide (start ≤ p.1))).map Prod.snd

/-- `align`: the Series Aligner & Filler of the spec, embedding
`asset_tracker.py:261-262`: forward-fill every column first, then drop the
rows whose date is strictly before `start`. -/
def align (start : ℕ) (t : PTable) : PTable :=
  { dates := t.dates.filter (fun d => decide (start ≤ d))
    cols := t.cols.map (fun c => (c.1, trimCol t.dates start (ffill c.2))) }

/-- After the first non-missing cell of a list, no cell is missing (the
shape `ffill` produces: the missing cells form a prefix). -/
def frontFilled : List Cell → Prop
  | [] => True
  | none :: xs => frontFilled xs
  | some _ :: xs => ∀ y ∈ xs, y ≠ none

/-- `pandas.Series.all(isna)` on one column: every cell is missing
(`asset_tracker.py:270`). -/
def allNaN (col : List Cell) : Bool := col.all (fun x => x.isNone)

/-- `asset_tracker.py:270-274`: names of the all-missing columns, and the
table with exactly those columns dropped.  The second component is the
list of tickers named by the non-fatal warning (empty list = no warning). -/
def drop_all_nan (t : PTable) : PTable × List String :=
  ({ t with cols := t.cols.filter (fun c => ! allNaN c.2) },
   (t.cols.filter (fun c => allNaN c.2)).map Prod.fst)

/-- `DataFrame.empty`: true iff the table has zero rows or zero columns. -/
def tableEmpty (t : PTable) : Bool := t.dates.isEmpty || t.cols.isEmpty

/-- `asset_tracker.py:269-284`: drop the all-missing columns (warning in
the second component) and then fail fatally (`st.error` + `st.stop`, the
spec's `EmptyResult`) exactly when the resulting frame is empty. -/
def drop_and_guard (t : PTable) : Except String (PTable × List String) :=
  let r := drop_all_nan t
  if tableEmpty r.1 then Except.error "EmptyResult" else Except.ok r

/-- First non-missing position of a column:
`pandas.Series.first_valid_index` (`asset_tracker.py:308`). -/
def first_valid_index (xs : List Cell) : Option ℕ := xs.findIdx? (fun x => x.isSome)

/-- `asset_tracker.py:309-313`: the baseline value of a column, the cell at
its first valid index (`none` when the whole column is missing). -/
def baseline_value (xs : List Cell) : Cell :=
  match first_valid_index xs with
  | some i => xs.getD i none
  | none => none

/-- `baseline_values.replace(0, pd.NA)` (`asset_tracker.py:316`): a baseline
of exactly zero becomes a missing value; nothing else changes. -/
def adj_baseline (xs : List Cell) : Cell :=
  match baseline_value xs with
  | some b => if b = 0 then none else some b
  | none => none

/-- `(filtered_data.divide(baseline_values, axis=1) - 1) * 100`
(`asset_tracker.py:318`) on one column: elementwise
`(value / baseline - 1) * 100`, where an operation touching a missing
value (missing cell or missing baseline) yields a missing value, as in
pandas. -/
def normalizeCol (xs : List Cell) : List Cell :=
  xs.map (fun x =>
    match x, adj_baseline xs with
    | some v, some b => some ((v / b - 1) * 100)
    | _, _ => none)

/-- Uppercase a character list, as Python `str.upper` on ASCII. -/
def upperChars (s : List Char) : List Char := s.map Char.toUpper

/-- Python `str.strip()`: remove leading and trailing whitespace. -/
def stripChars (s : List Char) : List Char :=
  ((s.dropWhile Char.isWhitespace).reverse.dropWhile Char.isWhitespace).reverse

/-- Python `s.endswith(suf)` on character lists. -/
def endsWithChars (s suf : List Char) : Bool :=
  (s.reverse.take suf.length) == suf.reverse

/-- Python `s.split("-")`: split at every dash, keeping empty chunks. -/
def splitDash : List Char → List (List Char)
  | [] => [[]]
  | c :: cs =>
    let r := splitDash cs
    if c = '-' then [] :: r
    else
      match r with
      | [] => [[c]]
      | g :: gs => (c :: g) :: gs

/-- Python substring test `ned in hay` on character lists. -/
def hasSub (hay ned : List Char) : Bool :=
  (List.range (hay.length + 1)).any (fun i => (hay.drop i).take ned.length == ned)

/-- `alpha_tracker.py:13-14`: `is_crypto(ticker)` — "Identify crypto
tickers by the presence of a dash", i.e. Python `"-" in ticker`. -/
def is_crypto (ticker : String) : Bool := hasSub ticker.data ['-']

/-- `twelve_data_tracker.py:14-18`, one ticker: if it contains a dash and
its uppercase form ends in `USD`, split the uppercase form at the dash
into base and quote and return `BASE/QUOTE`; otherwise return the ticker
unchanged.  `none` models the `ValueError` Python raises when the
two-variable unpacking `base, quote = t.upper().split("-")` meets a
number of chunks other than two. -/
def normalize_ticker (t : String) : Option String :=
  if hasSub t.data ['-'] && endsWithChars (upperChars t.data) "USD".data then
    match splitDash (upperChars t.data) with
    | [base, quote] => some (String.mk (base ++ '/' :: quote))
    | _ => none
  else some t

/-- `twelve_data_tracker.py:11-20`: `normalize_tickers` builds the map from
user ticker to provider symbol (modelled as an association list in input
order). -/
def normalize_tickers (tickers : List String) : List (String × Option String) :=
  tickers.map (fun t => (t, normalize_ticker t))

/-- A per-ticker daily close series: (date, close) pairs. -/
abbrev Series := List (ℕ × ℚ)

/-- Why a per-ticker fetch from the provider failed. -/
inductive FetchErr
  | connectionUnreachable
  | other (msg : String)
  deriving DecidableEq, Repr

/-- `df.sort_index()` on a series: sort ascending by date. -/
def sortSeries (s : Series) : Series := s.mergeSort (fun a b => decide (a.1 ≤ b.1))

/-- `alpha_tracker.py:31-58`, `fetch_alpha_vantage_data`.  The provider is
abstracted as `results : String → Except FetchErr Series`, the outcome of
the one network call made for each ticker (`fetch_crypto` /
`fetch_equity`).  The Python loop catches every exception a ticker's
fetch raises — connection failures included — prints a diagnostic
(`"Error fetching {ticker}: ..."`, collected here in the second
component) and continues; a successful series is sorted by date and
trimmed to dates `≥ start_date`.  The function itself never raises, so
the `Except` at the outside is always `ok`; an empty column list models
the `pd.DataFrame()` returned when every ticker failed, and the combined
frame is modelled as its list of named columns (what
`pd.concat(all_data, axis=1)` holds). -/
def fetch_av_step (results : String → Except FetchErr Series) (start : ℕ)
    (acc : List (String × Series) × List String) (t : String) :
    List (String × Series) × List String :=
  match results t with
  | Except.ok df =>
    (acc.1 ++ [(t, (sortSeries df).filter (fun p => decide (start ≤ p.1)))], acc.2)
  | Except.error _ => (acc.1, acc.2 ++ ["Error fetching " ++ t])

def fetch_alpha_vantage_data (results : String → Except FetchErr Series)
    (tickers : List String) (start : ℕ) :
    Except FetchErr (List (String × Series) × List String) :=
  Except.ok (tickers.foldl (fetch_av_step results start) ([], []))

/-- The series column the loop of `fetch_alpha_vantage_data` builds for a
ticker whose provider call succeeded: sorted by date, trimmed to dates on
or after the start date.  Specification-side shorthand used to state the
characterization of the fetch. -/
def fetched_series (results : String → Except FetchErr Series) (start : ℕ) (t : String) :
    Series :=
  (sortSeries ((results t).toOption.getD [])).filter (fun p => decide (start ≤ p.1))

/-- `twelve_data_tracker.py:22-38`, `convert_batch_df`.  The provider's
multi-index frame is abstracted as `df : String → Option Series` (lookup
by provider symbol; `none` models the `KeyError`).  A ticker whose symbol
is missing is dropped with the printed diagnostic
`"Missing data for {user_ticker}"`; the rest are returned as named close
columns in map order. -/
def convert_step (df : String → Option Series)
    (acc : List (String × Series) × List String) (p : String × String) :
    List (String × Series) × List String :=
  match df p.2 with
  | some s => (acc.1 ++ [(p.1, s)], acc.2)
  | none => (acc.1, acc.2 ++ ["Missing data for " ++ p.1])

def convert_batch_df (df : String → Option Series)
    (ticker_map : List (String × String)) :
    List (String × Series) × List String :=
  ticker_map.foldl (convert_step df) ([], [])

/-- A row-major price table for the realtime patch: column names plus
dated rows.  Well-formed when every row has one cell per column. -/
structure RTable where
  names : List String
  rows : List (ℕ × List Cell)
  deriving DecidableEq, Repr

/-- Every row has one cell per column name. -/
def RTable.wf (t : RTable) : Prop := ∀ r ∈ t.rows, r.2.length = t.names.length

instance (t : RTable) : Decidable t.wf := by
  unfold RTable.wf; infer_instance

/-- The row `pd.DataFrame({t: price}, index=[today])` contributes after
`pd.concat` (`asset_tracker.py:297-298`): the live price in ticker `t`'s
column, a missing value everywhere else. -/
def blankRow (names : List String) (t : String) (p : ℚ) : List Cell :=
  names.map (fun n => if n = t then some p else none)

/-- `filtered_data.loc[last_index, t] = price` (`asset_tracker.py:301`) on
one row: overwrite the cell of column `t`, leave every other cell. -/
def setAt (names : List String) (t : String) (p : ℚ) (r : List Cell) : List Cell :=
  (names.zip r).map (fun nc => if nc.1 = t then some p else nc.2)

/-- One iteration of the realtime-patch loop (`asset_tracker.py:290-303`)
for ticker `t`.  The guard is the source's `"-USD" in t`.  `quote t` is
`yf.Ticker(t).info.get("regularMarketPrice")` filtered through
`pd.notna`: `none` models both a raised exception (caught and logged by
the `except` arm) and a missing/NaN quote — in every such case the table
is left untouched and the loop moves on.  With a live quote in hand: if
the last row's date is before `today`, append a new row dated `today`;
otherwise overwrite ticker `t`'s cell of the last row.  (The source
reads `filtered_data.index[-1]` only after the empty-frame guard at
`asset_tracker.py:282-284`, so the no-row branch is unreachable there;
it returns the table unchanged.) -/
def patchOne (today : ℕ) (quote : String → Option ℚ) (tb : RTable) (t : String) : RTable :=
  if hasSub t.data "-USD".data then
    match quote t with
    | some p =>
      match tb.rows.getLast? with
      | some (dlast, rlast) =>
        if dlast < today then
          { tb with rows := tb.rows ++ [(today, blankRow tb.names t p)] }
        else
          { tb with rows := tb.rows.dropLast ++ [(dlast, setAt tb.names t p rlast)] }
      | none => tb
    | none => tb
  else tb

/-- The whole realtime-patch loop `for t in selected_assets:`
(`asset_tracker.py:290-303`). -/
def patchAll (today : ℕ) (quote : String → Option ℚ) (tb : RTable) (ts : List String) : RTable :=
  ts.foldl (patchOne today quote) tb

/-- The session state touched by the add-ticker callback
(`asset_tracker.py:51-58`): the watchlist is `ticker_list` together with
`selected_assets`. -/
structure AppState where
  ticker_list : List String
  selected_assets : List String
  user_input : String
  add_ticker_error : String
  add_ticker_error_expires : ℚ
  deriving DecidableEq, Repr

/-- The separator characters rejected at `asset_tracker.py:162`. -/
def sepChars : List Char := [',', ' ', ';', '\n', '\t']

/-- Membership in the allow-list of `_TICKER_RE = ^[A-Z0-9.\-=^]+$`
(`asset_tracker.py:150`). -/
def allowedChar (c : Char) : Bool :=
  ('A' ≤ c && c ≤ 'Z') || ('0' ≤ c && c ≤ '9') || c == '.' || c == '-' || c == '=' || c == '^'

/-- `_TICKER_RE.match(s)`: at least one character, all from the allow-list. -/
def ticker_re_match (s : List Char) : Bool := ! s.isEmpty && s.all allowedChar

/-- `asset_tracker.py:152-196`, the `add_ticker` callback.  `now` stands
for `time.time()` and `is_valid_ticker` for the network probe of
`asset_tracker.py:92-99`.  The input is stripped and uppercased, the
text box cleared, and then in order: empty input returns silently; an
input holding a separator character, or one failing the allow-list
pattern, sets an error and returns with the watchlist untouched; a
ticker already listed and selected sets an "already selected" error;
otherwise a valid ticker is appended to the list and the selection and
the error cleared, and an invalid one sets an error, the watchlist again
untouched. -/
def add_ticker (now : ℚ) (is_valid_ticker : String → Bool) (s : AppState) : AppState :=
  let new_ticker := String.mk (upperChars (stripChars s.user_input.data))
  let s1 := { s with user_input := "" }
  if new_ticker = "" then s1
  else if sepChars.any (fun c => new_ticker.data.contains c) then
    { s1 with add_ticker_error := "Enter exactly ONE ticker (no commas or spaces)."
              add_ticker_error_expires := now + 2 }
  else if ! ticker_re_match new_ticker.data then
    { s1 with add_ticker_error := "Ticker contains invalid characters."
              add_ticker_error_expires := now + 2 }
  else if new_ticker ∈ s1.ticker_list ∧ new_ticker ∈ s1.selected_assets then
    { s1 with add_ticker_error := new_ticker ++ " is already selected."
              add_ticker_error_expires := now + 3/2 }
  else if is_valid_ticker new_ticker then
    { s1 with
        ticker_list := if new_ticker ∈ s1.ticker_list then s1.ticker_list
                       else s1.ticker_list ++ [new_ticker]
        selected_assets := if new_ticker ∈ s1.selected_assets then s1.selected_assets
                           else s1.selected_assets ++ [new_ticker]
        add_ticker_error := ""
        add_ticker_error_expires := 0 }
  else
    { s1 with add_ticker_error := "Sorry, " ++ new_ticker ++ " is not a valid ticker."
              add_ticker_error_expires := now + 2 }

/-! ## Helper lemmas -/

theorem ffillAux_length (last : Cell) (xs : List Cell) :
    (ffillAux last xs).length = xs.length := by
  induction xs generalizing last with
  | nil => rfl
  | cons x xs ih => cases x <;> simp [ffillAux, ih]

theorem ffill_length (xs : List Cell) : (ffill xs).length = xs.length :=
  ffillAux_length none xs

theorem lastSome_cons (x : Cell) (xs : List Cell) :
    lastSome (x :: xs) =
      match lastSome xs with
      | some v => some v
      | none => x := rfl

theorem ffillAux_getD (last : Cell) (xs : List Cell) (i : ℕ) (h : i < xs.length) :
    (ffillAux last xs).getD i none =
      match lastSome (xs.take (i + 1)) with
      | some v => some v
      | none => last := by
  induction xs generalizing last i with
  | nil => simp at h
  | cons x xs ih =>
    cases x with
    | some v =>
      cases i with
      | zero => simp [ffillAux, lastSome]
      | succ j =>
        have hj : j < xs.length := Nat.succ_lt_succ_iff.mp (by simpa using h)
        show (ffillAux (some v) xs).getD j none = _
        rw [ih (some v) j hj, List.take_succ_cons, lastSome_cons]
        cases lastSome (xs.take (j + 1)) <;> rfl
    | none =>
      cases i with
      | zero => simp [ffillAux, lastSome]
      | succ j =>
        have hj : j < xs.length := Nat.succ_lt_succ_iff.mp (by simpa using h)
        show (ffillAux last xs).getD j none = _
        rw [ih last j hj, List.take_succ_cons, lastSome_cons]
        cases lastSome (xs.take (j + 1)) <;> rfl

theorem ffill_getD (xs : List Cell) (i : ℕ) (h : i < xs.length) :
    (ffill xs).getD i none = lastSome (xs.take (i + 1)) := by
  rw [ffill, ffillAux_getD none xs i h]
  cases lastSome (xs.take (i + 1)) <;> rfl

theorem getD_of_all_none (xs : List Cell) (h : ∀ x ∈ xs, x = none) (i : ℕ) :
    xs.getD i none = none := by
  rcases Nat.lt_or_ge i xs.length with hi | hi
  · rw [List.getD_eq_getElem xs none hi]
    exact h _ (List.getElem_mem hi)
  · exact List.getD_eq_default xs none hi

theorem getD_take (xs : List Cell) (n m : ℕ) (hm : m < n) :
    (xs.take n).getD m none = xs.getD m none := by
  rcases Nat.lt_or_ge m xs.length with hx | hx
  · have hmt : m < (xs.take n).length := by
      rw [List.length_take]; exact lt_min hm hx
    rw [List.getD_eq_getElem _ none hmt, List.getD_eq_getElem _ none hx, List.getElem_take]
  · rw [List.getD_eq_default _ none hx, List.getD_eq_default]
    rw [List.length_take]
    exact le_trans (min_le_right n xs.length) hx

theorem lastSome_spec (xs : List Cell) :
    ((∀ x ∈ xs, x = none) ∧ lastSome xs = none) ∨
      (∃ j, j < xs.length ∧ xs.getD j none ≠ none ∧
        (∀ k, j < k → k < xs.length → xs.getD k none = none) ∧
        lastSome xs = xs.getD j none) := by
  induction xs with
  | nil => left; exact ⟨by simp, rfl⟩
  | cons x xs ih =>
    rcases ih with ⟨hall, hnone⟩ | ⟨j, hj, hne, hmax, heq⟩
    · cases x with
      | none =>
        left
        refine ⟨?_, ?_⟩
        · intro y hy
          rcases List.mem_cons.mp hy with h | h
          · exact h
          · exact hall y h
        · rw [lastSome_cons, hnone]
      | some v =>
        right
        refine ⟨0, Nat.succ_pos _, ?_, ?_, ?_⟩
        · rw [List.getD_cons_zero]; exact Option.some_ne_none v
        · intro k hk _
          obtain ⟨k', rfl⟩ : ∃ k', k = k' + 1 := ⟨k - 1, by omega⟩
          rw [List.getD_cons_succ]
          exact getD_of_all_none xs hall k'
        · rw [lastSome_cons, hnone, List.getD_cons_zero]
    · right
      refine ⟨j + 1, Nat.succ_lt_succ hj, ?_, ?_, ?_⟩
      · rwa [List.getD_cons_succ]
      · intro k hk hklen
        obtain ⟨k', rfl⟩ : ∃ k', k = k' + 1 := ⟨k - 1, by omega⟩
        rw [List.getD_cons_succ]
        exact hmax k' (by omega) (Nat.succ_lt_succ_iff.mp (by simpa using hklen))
      · rw [lastSome_cons, heq, List.getD_cons_succ]
        rcases Option.ne_none_iff_exists.mp hne with ⟨w, hw⟩
        rw [← hw]

/-! ## Claim theorems -/

/-- C4 (confirmed): in `align`, forward-filling is applied to every column
before rows strictly before the start date are dropped (first conjunct:
the output columns are `trimCol` applied to the `ffill` of the raw
columns, the trim seeing the already-filled data); and for every column
and row index `i` that is missing in the input, if some row `j < i` is
non-missing then the filled value at `i` equals the most recent
non-missing value at or before `i`, while rows with no preceding
non-missing value stay missing. -/
theorem C4_forward_fill :
    (∀ (start : ℕ) (t : PTable),
        (align start t).cols = t.cols.map (fun c => (c.1, trimCol t.dates start (ffill c.2)))) ∧
    ∀ (xs : List Cell) (i : ℕ), i < xs.length → xs.getD i none = none →
      ((∃ j, j < i ∧ xs.getD j none ≠ none) →
        ∃ j, j ≤ i ∧ xs.getD j none ≠ none ∧
          (∀ k, j < k → k ≤ i → xs.getD k none = none) ∧
          (ffill xs).getD i none = xs.getD j none) ∧
      ((∀ j, j ≤ i → xs.getD j none = none) → (ffill xs).getD i none = none) := by
  refine ⟨fun start t => rfl, ?_⟩
  intro xs i hi _
  have hlen : (xs.take (i + 1)).length = i + 1 := by
    rw [List.length_take]; exact min_eq_left (Nat.succ_le_of_lt hi)
  constructor
  · rintro ⟨j0, hj0, hne0⟩
    rcases lastSome_spec (xs.take (i + 1)) with ⟨hall, _⟩ | ⟨j, hj, hne, hmax, heq⟩
    · exfalso
      apply hne0
      rw [← getD_take xs (i + 1) j0 (Nat.lt_succ_of_lt hj0)]
      exact getD_of_all_none _ hall j0
    · rw [hlen] at hj hmax
      refine ⟨j, Nat.lt_succ_iff.mp hj, ?_, ?_, ?_⟩
      · rwa [← getD_take xs (i + 1) j hj]
      · intro k hk hki
        have := hmax k hk (Nat.lt_succ_of_le hki)
        rwa [getD_take xs (i + 1) k (Nat.lt_succ_of_le hki)] at this
      · rw [ffill_getD xs i hi, heq, getD_take xs (i + 1) j hj]
  · intro hall
    rw [ffill_getD xs i hi]
    rcases lastSome_spec (xs.take (i + 1)) with ⟨_, hnone⟩ | ⟨j, hj, hne, _, _⟩
    · exact hnone
    · exfalso
      rw [hlen] at hj
      apply hne
      rw [getD_take xs (i + 1) j hj]
      exact hall j (Nat.lt_succ_iff.mp hj)

/-- Witness for C4 at the spec's scenario column `[100, NaN, 102]`: the
missing middle row is filled from the most recent non-missing row. -/
theorem C4_witness :
    ∃ j, j ≤ 1 ∧ ([some 100, none, some 102] : List Cell).getD j none ≠ none ∧
      (∀ k, j < k → k ≤ 1 → ([some 100, none, some 102] : List Cell).getD k none = none) ∧
      (ffill [some 100, none, some 102]).getD 1 none =
        ([some 100, none, some 102] : List Cell).getD j none :=
  (C4_forward_fill.2 [some 100, none, some 102] 1 (by decide) (by decide)).1
    ⟨0, by decide, by decide⟩

theorem ffillAux_all_some (v : ℚ) (xs : List Cell) :
    ∀ y ∈ ffillAux (some v) xs, y ≠ none := by
  induction xs generalizing v with
  | nil => intro y hy; simp [ffillAux] at hy
  | cons x xs ih =>
    intro y hy
    cases x with
    | some w =>
      rcases List.mem_cons.mp hy with h | h
      · rw [h]; exact Option.some_ne_none w
      · exact ih w y h
    | none =>
      rcases List.mem_cons.mp hy with h | h
      · rw [h]; exact Option.some_ne_none v
      · exact ih v y h

theorem frontFilled_of_all_some (xs : List Cell) (h : ∀ y ∈ xs, y ≠ none) :
    frontFilled xs := by
  induction xs with
  | nil => trivial
  | cons x xs ih =>
    cases x with
    | none => exact absurd rfl (h none (List.mem_cons_self _ _))
    | some v => exact fun y hy => h y (List.mem_cons_of_mem _ hy)

theorem frontFilled_ffill (xs : List Cell) : frontFilled (ffill xs) := by
  rw [ffill]
  induction xs with
  | nil => trivial
  | cons x xs ih =>
    cases x with
    | none => exact ih
    | some v =>
      show frontFilled (some v :: ffillAux (some v) xs)
      exact ffillAux_all_some v xs

theorem frontFilled_of_cons (x : Cell) (xs : List Cell) (h : frontFilled (x :: xs)) :
    frontFilled xs := by
  cases x with
  | none => exact h
  | some v => exact frontFilled_of_all_some xs h

theorem frontFilled_sublist {l xs : List Cell} (hs : l.Sublist xs) (h : frontFilled xs) :
    frontFilled l := by
  induction hs with
  | slnil => trivial
  | cons a hs ih => exact ih (frontFilled_of_cons a _ h)
  | cons₂ a hs ih =>
    cases a with
    | none => exact ih (frontFilled_of_cons none _ h)
    | some v => exact fun y hy => h y (hs.subset hy)

theorem ffillAux_of_all_some (last : Cell) (xs : List Cell) (h : ∀ y ∈ xs, y ≠ none) :
    ffillAux last xs = xs := by
  induction xs generalizing last with
  | nil => rfl
  | cons x xs ih =>
    cases x with
    | none => exact absurd rfl (h none (List.mem_cons_self _ _))
    | some v =>
      show some v :: ffillAux (some v) xs = some v :: xs
      rw [ih (some v) (fun y hy => h y (List.mem_cons_of_mem _ hy))]

theorem ffill_of_frontFilled (xs : List Cell) (h : frontFilled xs) : ffill xs = xs := by
  rw [ffill]
  induction xs with
  | nil => rfl
  | cons x xs ih =>
    cases x with
    | none =>
      show none :: ffillAux none xs = none :: xs
      rw [ih h]
    | some v =>
      show some v :: ffillAux (some v) xs = some v :: xs
      rw [ffillAux_of_all_some (some v) xs h]

theorem trimCol_nil_left (start : ℕ) (col : List Cell) : trimCol [] start col = [] := rfl

theorem trimCol_nil_right (dates : List ℕ) (start : ℕ) : trimCol dates start [] = [] := by
  rw [trimCol, List.zip_nil_right]; rfl

theorem trimCol_cons (d : ℕ) (ds : List ℕ) (start : ℕ) (c : Cell) (cs : List Cell) :
    trimCol (d :: ds) start (c :: cs) =
      if start ≤ d then c :: trimCol ds start cs else trimCol ds start cs := by
  rw [trimCol]
  show (List.filter _ ((d, c) :: ds.zip cs)).map Prod.snd = _
  rw [List.filter_cons]
  by_cases h : start ≤ d
  · rw [if_pos (decide_eq_true h), if_pos h]
    rfl
  · rw [if_neg (by simpa using h), if_neg h]
    rfl

theorem trimCol_sublist (dates : List ℕ) (start : ℕ) (col : List Cell) :
    (trimCol dates start col).Sublist col := by
  induction dates generalizing col with
  | nil => exact List.nil_sublist col
  | cons d ds ih =>
    cases col with
    | nil => rw [trimCol_nil_right]
    | cons c cs =>
      rw [trimCol_cons]
      by_cases h : start ≤ d
      · rw [if_pos h]; exact (ih cs).cons₂ c
      · rw [if_neg h]; exact (ih cs).cons c

theorem trimCol_retrim (dates : List ℕ) (start : ℕ) (col : List Cell)
    (hlen : dates.length = col.length) :
    trimCol (dates.filter (fun d => decide (start ≤ d))) start (trimCol dates start col) =
      trimCol dates start col := by
  induction dates generalizing col with
  | nil => rfl
  | cons d ds ih =>
    cases col with
    | nil => simp at hlen
    | cons c cs =>
      have hlen' : ds.length = cs.length := by simpa using hlen
      rw [trimCol_cons, List.filter_cons]
      by_cases h : start ≤ d
      · rw [if_pos h, if_pos (decide_eq_true h), trimCol_cons, if_pos h, ih cs hlen']
      · rw [if_neg h, if_neg (by simpa using h), ih cs hlen']

theorem filter_dates_idem (dates : List ℕ) (start : ℕ) :
    (dates.filter (fun d => decide (start ≤ d))).filter (fun d => decide (start ≤ d)) =
      dates.filter (fun d => decide (start ≤ d)) := by
  apply List.filter_eq_self.mpr
  intro a ha
  exact (List.mem_filter.mp ha).2

/-- C6 (confirmed): `align` (forward-fill, then trim to the start date) is
idempotent on well-formed tables: aligning an already-aligned table
returns the same table. -/
theorem C6_align_idempotent (start : ℕ) (t : PTable) (hwf : t.wf) :
    align start (align start t) = align start t := by
  show PTable.mk _ _ = PTable.mk _ _
  rw [PTable.mk.injEq]
  constructor
  · exact filter_dates_idem t.dates start
  · show (t.cols.map _).map _ = t.cols.map _
    rw [List.map_map]
    apply List.map_congr_left
    intro c hc
    show (c.1, trimCol (t.dates.filter _) start (ffill (trimCol t.dates start (ffill c.2)))) = _
    have h1 : ffill (trimCol t.dates start (ffill c.2)) = trimCol t.dates start (ffill c.2) :=
      ffill_of_frontFilled _
        (frontFilled_sublist (trimCol_sublist t.dates start (ffill c.2)) (frontFilled_ffill c.2))
    have h2 : t.dates.length = (ffill c.2).length := by
      rw [ffill_length, hwf c hc]
    rw [h1, trimCol_retrim t.dates start (ffill c.2) h2]

/-- Witness for C6 on a concrete well-formed table. -/
theorem C6_witness :
    (PTable.mk [1, 2, 3] [("SPY", [none, some 100, none]), ("BTC-USD", [some 5, none, none])]).wf ∧
    align 2 (align 2 (PTable.mk [1, 2, 3]
        [("SPY", [none, some 100, none]), ("BTC-USD", [some 5, none, none])])) =
      align 2 (PTable.mk [1, 2, 3]
        [("SPY", [none, some 100, none]), ("BTC-USD", [some 5, none, none])]) :=
  ⟨by decide, C6_align_idempotent 2 _ (by decide)⟩

/-- C1 counterexample: a column whose first valid value is exactly `0`.
The claim says normalization never yields an infinite or NaN value there
because the zero baseline is replaced by a small positive epsilon; the
code instead replaces the zero baseline by a *missing* value
(`replace(0, pd.NA)`), so every value of that column comes out missing
(NaN in the float frame) — no epsilon substitution, no finite result. -/
theorem C1_counterexample :
    baseline_value [some 0, some 5] = some 0 ∧
    normalizeCol [some 0, some 5] = [none, none] := by
  constructor <;> decide

/-- C1 (corrected): when a column's first non-missing value is exactly `0`,
the code replaces the baseline by a missing value, so the percentChange
normalization makes every value of that column missing (NaN) — it never
produces an infinite value, but also never a finite one, and no epsilon
is involved. -/
theorem C1_zero_baseline (xs : List Cell) (h : baseline_value xs = some 0) :
    ∀ x ∈ normalizeCol xs, x = none := by
  have hb : adj_baseline xs = none := by
    rw [adj_baseline, h]
    rfl
  intro x hx
  rcases List.mem_map.mp hx with ⟨y, _, hy⟩
  rw [← hy, hb]
  cases y <;> rfl

/-- Witness for C1's corrected statement. -/
theorem C1_witness :
    baseline_value [some 0, some 5] = some 0 ∧
      ∀ x ∈ normalizeCol [some 0, some 5], x = none :=
  ⟨by decide, C1_zero_baseline [some 0, some 5] (by decide)⟩

/-- C5 (confirmed): for a column whose first non-missing value `b` sits at
index `i` and is non-zero, the percentChange-normalized value at that
baseline index is exactly `0` (the rational model is exact, so "within
floating tolerance" holds a fortiori). -/
theorem C5_baseline_zero_pct (xs : List Cell) (i : ℕ) (b : ℚ)
    (h1 : first_valid_index xs = some i) (h2 : xs.getD i none = some b) (h3 : b ≠ 0) :
    (normalizeCol xs).getD i none = some 0 := by
  have hi : i < xs.length := by
    by_contra hge
    rw [List.getD_eq_default xs none (Nat.le_of_not_lt hge)] at h2
    exact Option.noConfusion h2
  have hb : baseline_value xs = some b := by
    rw [baseline_value, h1]
    exact h2
  have hadj : adj_baseline xs = some b := by
    rw [adj_baseline, hb]
    exact if_neg h3
  have hmap : i < (normalizeCol xs).length := by
    simpa [normalizeCol] using hi
  rw [List.getD_eq_getElem _ none hmap]
  simp only [normalizeCol, List.getElem_map]
  rw [List.getD_eq_getElem xs none hi] at h2
  rw [h2, hadj]
  show some ((b / b - 1) * 100) = some 0
  rw [div_self h3]
  norm_num

/-- Witness for C5, including the spec's scenario
`percentChange [100, 100, 102] = [0, 0, 2]`. -/
theorem C5_witness :
    first_valid_index [some 100, some 100, some 102] = some 0 ∧
    (normalizeCol [some 100, some 100, some 102]).getD 0 none = some 0 ∧
    normalizeCol [some 100, some 100, some 102] = [some 0, some 0, some 2] :=
  ⟨by decide,
   C5_baseline_zero_pct [some 100, some 100, some 102] 0 100 (by decide) (by decide)
     (by norm_num),
   by
     have hadj : adj_baseline [some 100, some 100, some 102] = some 100 := by
       rw [adj_baseline]
       have hb : baseline_value [some 100, some 100, some 102] = some 100 := by decide
       rw [hb]
       norm_num
     simp only [normalizeCol, hadj, List.map_cons, List.map_nil]
     norm_num⟩

/-- C7 (confirmed): after filling, the all-missing columns are dropped —
a column survives iff it is an original column with some non-missing
value, the survivors are the original columns unchanged and in order
(a sublist of the original column list), the date index is untouched,
the warning names exactly the dropped tickers, and the step fails with
the fatal `EmptyResult` error if and only if zero columns or zero rows
remain after the drop. -/
theorem C7_drop_all_nan (t : PTable) :
    (∀ c, c ∈ (drop_all_nan t).1.cols ↔ c ∈ t.cols ∧ allNaN c.2 = false) ∧
    (drop_all_nan t).1.cols.Sublist t.cols ∧
    (drop_all_nan t).1.dates = t.dates ∧
    (∀ n, n ∈ (drop_all_nan t).2 ↔ ∃ col, (n, col) ∈ t.cols ∧ allNaN col = true) ∧
    ((∃ e, drop_and_guard t = Except.error e) ↔
      ((drop_all_nan t).1.dates = [] ∨ (drop_all_nan t).1.cols = [])) := by
  refine ⟨?_, ?_, rfl, ?_, ?_⟩
  · intro c
    rw [drop_all_nan]
    constructor
    · intro hc
      rcases List.mem_filter.mp hc with ⟨hmem, hp⟩
      exact ⟨hmem, by simpa using hp⟩
    · intro ⟨hmem, hp⟩
      exact List.mem_filter.mpr ⟨hmem, by simpa using hp⟩
  · exact List.filter_sublist t.cols
  · intro n
    rw [drop_all_nan]
    constructor
    · intro hn
      rcases List.mem_map.mp hn with ⟨c, hc, hfst⟩
      rcases List.mem_filter.mp hc with ⟨hmem, hp⟩
      refine ⟨c.2, ?_, hp⟩
      rw [← hfst, Prod.mk.eta]
      exact hmem
    · rintro ⟨col, hmem, hp⟩
      exact List.mem_map.mpr ⟨(n, col), List.mem_filter.mpr ⟨hmem, hp⟩, rfl⟩
  · rw [drop_and_guard]
    by_cases he : tableEmpty (drop_all_nan t).1 = true
    · simp only [he, if_true]
      constructor
      · intro _
        rw [tableEmpty] at he
        rcases Bool.or_eq_true_iff.mp he with h | h
        · exact Or.inl (List.isEmpty_iff.mp h)
        · exact Or.inr (List.isEmpty_iff.mp h)
      · intro _
        exact ⟨"EmptyResult", rfl⟩
    · simp only [he, if_false]
      constructor
      · rintro ⟨e, he'⟩
        exact Except.noConfusion he'
      · intro h
        exfalso
        apply he
        rw [tableEmpty]
        rcases h with h | h
        · rw [h]; rfl
        · rw [h]
          simp

theorem hasSub_singleton (hay : List Char) (c : Char) :
    hasSub hay [c] = true ↔ c ∈ hay := by
  rw [hasSub, List.any_eq_true]
  constructor
  · rintro ⟨i, _, hi⟩
    have heq : (hay.drop i).take 1 = [c] := by simpa using hi
    have hc : c ∈ (hay.drop i).take 1 := by
      rw [heq]; exact List.mem_singleton_self c
    exact List.drop_subset i hay (List.take_subset 1 _ hc)
  · intro hc
    rcases List.getElem_of_mem hc with ⟨i, hlt, hi⟩
    refine ⟨i, List.mem_range.mpr (Nat.lt_succ_of_lt hlt), ?_⟩
    rw [List.drop_eq_getElem_cons hlt]
    show ((hay[i] :: hay.drop (i + 1)).take 1 == [c]) = true
    rw [List.take_succ_cons, List.take_zero, hi]
    simp

/-- C2 counterexample: `DX-Y.NYB` (the dollar index on the NYBOT, a
dash-containing non-crypto symbol present in the dashboard's default
ticker list) is classified crypto by `is_crypto`, which the claim says
never happens. -/
theorem C2_counterexample : is_crypto "DX-Y.NYB" = true := by decide

/-- C2 (corrected): `is_crypto` keys off dash presence alone — `BTC-USD`
is crypto and the dashless punctuation tickers `GC=F`, `^GSPC`, `BRK.B`
are not, but the dash-containing non-crypto symbol `DX-Y.NYB` is also
classified crypto.  `normalize_tickers` maps to the provider's
`BASE/QUOTE` form exactly the tickers that contain a dash and whose
uppercase form ends in `USD`, leaving `DX-Y.NYB` and `GC=F` unchanged. -/
theorem C2_dash_classification :
    (∀ t : String, is_crypto t = true ↔ '-' ∈ t.data) ∧
    is_crypto "BTC-USD" = true ∧ is_crypto "GC=F" = false ∧
    is_crypto "^GSPC" = false ∧ is_crypto "BRK.B" = false ∧
    is_crypto "DX-Y.NYB" = true ∧
    normalize_ticker "BTC-USD" = some "BTC/USD" ∧
    normalize_ticker "DX-Y.NYB" = some "DX-Y.NYB" ∧
    normalize_ticker "GC=F" = some "GC=F" ∧
    normalize_tickers ["BTC-USD", "DX-Y.NYB", "GC=F"] =
      [("BTC-USD", some "BTC/USD"), ("DX-Y.NYB", some "DX-Y.NYB"), ("GC=F", some "GC=F")] :=
  ⟨fun t => hasSub_singleton t.data '-', by decide, by decide, by decide, by decide,
   by decide, by decide, by decide, by decide, by decide⟩

theorem fetch_av_foldl (results : String → Except FetchErr Series) (start : ℕ)
    (tickers : List String) (acc : List (String × Series) × List String) :
    tickers.foldl (fetch_av_step results start) acc =
      (acc.1 ++ (tickers.filter (fun t => (results t).isOk)).map
          (fun t => (t, fetched_series results start t)),
       acc.2 ++ (tickers.filter (fun t => ! (results t).isOk)).map
          (fun t => "Error fetching " ++ t)) := by
  induction tickers generalizing acc with
  | nil => simp
  | cons t ts ih =>
    rw [List.foldl_cons]
    cases hr : results t with
    | ok df =>
      have hok : (results t).isOk = true := by rw [hr]; rfl
      have hstep : fetch_av_step results start acc t =
          (acc.1 ++ [(t, fetched_series results start t)], acc.2) := by
        rw [fetch_av_step, hr, fetched_series, hr]
        rfl
      rw [hstep, ih, List.filter_cons, List.filter_cons, hok]
      simp [List.append_assoc]
    | error e =>
      have hok : (results t).isOk = false := by rw [hr]; rfl
      have hstep : fetch_av_step results start acc t =
          (acc.1, acc.2 ++ ["Error fetching " ++ t]) := by
        rw [fetch_av_step, hr]
      rw [hstep, ih, List.filter_cons, List.filter_cons, hok]
      simp [List.append_assoc]

theorem convert_foldl (df : String → Option Series)
    (ticker_map : List (String × String)) (acc : List (String × Series) × List String) :
    ticker_map.foldl (convert_step df) acc =
      (acc.1 ++ (ticker_map.filter (fun p => (df p.2).isSome)).map
          (fun p => (p.1, (df p.2).getD [])),
       acc.2 ++ (ticker_map.filter (fun p => ! (df p.2).isSome)).map
          (fun p => "Missing data for " ++ p.1)) := by
  induction ticker_map generalizing acc with
  | nil => simp
  | cons p ps ih =>
    rw [List.foldl_cons]
    cases hr : df p.2 with
    | some s =>
      have hok : (df p.2).isSome = true := by rw [hr]; rfl
      have hstep : convert_step df acc p = (acc.1 ++ [(p.1, (df p.2).getD [])], acc.2) := by
        rw [convert_step, hr]
        rfl
      rw [hstep, ih, List.filter_cons, List.filter_cons, hok]
      simp [List.append_assoc]
    | none =>
      have hok : (df p.2).isSome = false := by rw [hr]; rfl
      have hstep : convert_step df acc p = (acc.1, acc.2 ++ ["Missing data for " ++ p.1]) := by
        rw [convert_step, hr]
      rw [hstep, ih, List.filter_cons, List.filter_cons, hok]
      simp [List.append_assoc]

/-- C3 counterexample: with the provider connection unreachable (every
per-ticker call failing with a connection error), the fetch does NOT
abort with a `ProviderUnavailable` error — it catches the failure,
prints a diagnostic, and returns an empty frame normally.  The claim's
"aborts ... exactly when the provider connection itself is unreachable"
is therefore false of the code. -/
theorem C3_counterexample :
    fetch_alpha_vantage_data (fun _ => Except.error FetchErr.connectionUnreachable) ["SPY"] 0 =
      Except.ok ([], ["Error fetching SPY"]) := rfl

/-- C3 (corrected): on a per-ticker fetch failure — a provider-connection
failure included — the ticker is dropped from the result and a
per-ticker diagnostic is surfaced, while the remaining tickers are still
returned (each series sorted and trimmed to the start date); the fetch
as a whole never aborts and never raises a `ProviderUnavailable` error:
`fetch_alpha_vantage_data` always returns `ok`, with an empty frame when
every ticker failed, and each ticker is consulted exactly once (no
retries).  Likewise `convert_batch_df` drops exactly the tickers whose
provider symbol is missing from the batch, with one diagnostic each. -/
theorem C3_fetch_never_aborts :
    (∀ (results : String → Except FetchErr Series) (tickers : List String) (start : ℕ),
      fetch_alpha_vantage_data results tickers start =
        Except.ok
          ((tickers.filter (fun t => (results t).isOk)).map
              (fun t => (t, fetched_series results start t)),
           (tickers.filter (fun t => ! (results t).isOk)).map
              (fun t => "Error fetching " ++ t))) ∧
    (∀ (df : String → Option Series) (ticker_map : List (String × String)),
      convert_batch_df df ticker_map =
        ((ticker_map.filter (fun p => (df p.2).isSome)).map
            (fun p => (p.1, (df p.2).getD [])),
         (ticker_map.filter (fun p => ! (df p.2).isSome)).map
            (fun p => "Missing data for " ++ p.1))) := by
  constructor
  · intro results tickers start
    rw [fetch_alpha_vantage_data, fetch_av_foldl]
    rfl
  · intro df ticker_map
    rw [convert_batch_df, convert_foldl]
    rfl

theorem patchOne_guard_false (today : ℕ) (quote : String → Option ℚ) (tb : RTable)
    (t : String) (h : hasSub t.data "-USD".data = false) :
    patchOne today quote tb t = tb := by
  rw [patchOne, h]
  rfl

theorem patchOne_quote_none (today : ℕ) (quote : String → Option ℚ) (tb : RTable)
    (t : String) (h : quote t = none) :
    patchOne today quote tb t = tb := by
  rw [patchOne, h]
  split <;> rfl

theorem patchOne_last_none (today : ℕ) (quote : String → Option ℚ) (tb : RTable)
    (t : String) (h : tb.rows.getLast? = none) :
    patchOne today quote tb t = tb := by
  rw [patchOne, h]
  split
  · cases quote t <;> rfl
  · rfl

theorem patchOne_append (today : ℕ) (quote : String → Option ℚ) (tb : RTable) (t : String)
    (p : ℚ) (dlast : ℕ) (rlast : List Cell)
    (h1 : quote t = some p) (h2 : hasSub t.data "-USD".data = true)
    (h3 : tb.rows.getLast? = some (dlast, rlast)) (h4 : dlast < today) :
    patchOne today quote tb t =
      { tb with rows := tb.rows ++ [(today, blankRow tb.names t p)] } := by
  rw [patchOne, h1, h3, if_pos h2]
  exact if_pos h4

theorem patchOne_overwrite (today : ℕ) (quote : String → Option ℚ) (tb : RTable) (t : String)
    (p : ℚ) (dlast : ℕ) (rlast : List Cell)
    (h1 : quote t = some p) (h2 : hasSub t.data "-USD".data = true)
    (h3 : tb.rows.getLast? = some (dlast, rlast)) (h4 : ¬ dlast < today) :
    patchOne today quote tb t =
      { tb with rows := tb.rows.dropLast ++ [(dlast, setAt tb.names t p rlast)] } := by
  rw [patchOne, h1, h3, if_pos h2]
  exact if_neg h4

theorem blankRow_getD (names : List String) (t : String) (p : ℚ) (j : ℕ)
    (hj : j < names.length) :
    (blankRow names t p).getD j none = if names.getD j "" = t then some p else none := by
  have hb : j < (blankRow names t p).length := by simpa [blankRow] using hj
  rw [List.getD_eq_getElem _ none hb]
  simp only [blankRow, List.getElem_map]
  rw [List.getD_eq_getElem names "" hj]

theorem setAt_getD (names : List String) (t : String) (p : ℚ) (r : List Cell) (j : ℕ)
    (hn : j < names.length) (hr : j < r.length) :
    (setAt names t p r).getD j none =
      if names.getD j "" = t then some p else r.getD j none := by
  have hz : j < (names.zip r).length := by
    rw [List.length_zip]; exact lt_min hn hr
  have hs : j < (setAt names t p r).length := by simpa [setAt] using hz
  rw [List.getD_eq_getElem _ none hs]
  simp only [setAt, List.getElem_map, List.getElem_zip]
  rw [List.getD_eq_getElem names "" hn, List.getD_eq_getElem r none hr]

/-- C8 counterexample: `BTC-EUR` matches the crypto base-quote dash
convention — `is_crypto`, the classifier the spec's section 4.1
describes, marks it continuous — yet the realtime-patch loop, whose
guard is the substring test `"-USD" in t`, leaves the table completely
untouched for it: no overwrite and no appended row for today, although a
live quote is available and today is past the last row. -/
theorem C8_counterexample :
    is_crypto "BTC-EUR" = true ∧
    patchAll 5 (fun _ => some 20) (RTable.mk ["BTC-EUR"] [(3, [some 10])]) ["BTC-EUR"] =
      RTable.mk ["BTC-EUR"] [(3, [some 10])] := by
  constructor <;> decide

/-- C8 (corrected): the realtime patch applies to the tickers containing
the substring `-USD` (not to everything the section-4.1 dash classifier
marks continuous).  For such a ticker with a live quote: if the last
row's date is before today a new row dated today is appended, otherwise
the last row's value for that ticker is overwritten; a failed or missing
live quote leaves the table unchanged for that ticker, never aborts, and
the loop continues with the remaining tickers either way. -/
theorem C8_patch_cases (today : ℕ) (quote : String → Option ℚ) (tb : RTable) (t : String)
    (dlast : ℕ) (rlast : List Cell) (hlast : tb.rows.getLast? = some (dlast, rlast)) :
    (hasSub t.data "-USD".data = false → patchOne today quote tb t = tb) ∧
    (quote t = none → patchOne today quote tb t = tb) ∧
    (∀ p, quote t = some p → hasSub t.data "-USD".data = true → dlast < today →
      patchOne today quote tb t =
        { tb with rows := tb.rows ++ [(today, blankRow tb.names t p)] }) ∧
    (∀ p, quote t = some p → hasSub t.data "-USD".data = true → ¬ dlast < today →
      patchOne today quote tb t =
        { tb with rows := tb.rows.dropLast ++ [(dlast, setAt tb.names t p rlast)] }) ∧
    (∀ ts, patchAll today quote tb (t :: ts) =
      patchAll today quote (patchOne today quote tb t) ts) :=
  ⟨patchOne_guard_false today quote tb t,
   patchOne_quote_none today quote tb t,
   fun p hq hg hlt => patchOne_append today quote tb t p dlast rlast hq hg hlast hlt,
   fun p hq hg hlt => patchOne_overwrite today quote tb t p dlast rlast hq hg hlast hlt,
   fun _ => rfl⟩

/-- Witness for C8's corrected statement: appending today's row for a
`-USD` ticker whose last table row is older than today. -/
theorem C8_witness :
    patchOne 5 (fun _ => some 20) (RTable.mk ["BTC-USD"] [(3, [some 10])]) "BTC-USD" =
      RTable.mk ["BTC-USD"] ([(3, [some 10])] ++ [(5, blankRow ["BTC-USD"] "BTC-USD" 20)]) :=
  (C8_patch_cases 5 (fun _ => some 20) (RTable.mk ["BTC-USD"] [(3, [some 10])]) "BTC-USD" 3
      [some 10] (by decide)).2.2.1 20 rfl (by decide) (by decide)

/-- C10 (confirmed): the realtime patch never modifies an existing cell of
a column other than the patched ticker's — every row except the last is
untouched in all cases; in the overwrite case the last row keeps its
date and every cell in a column not named `t`; and in the append case
the original rows are kept verbatim while the appended row, dated today,
carries a value only in ticker `t`'s columns, every other column holding
a missing value at today's date. -/
theorem C10_frame (today : ℕ) (quote : String → Option ℚ) (tb : RTable) (t : String)
    (hwf : tb.wf) :
    (∀ i, i + 1 < tb.rows.length →
      (patchOne today quote tb t).rows.getD i (0, []) = tb.rows.getD i (0, [])) ∧
    (∀ p dlast rlast, quote t = some p → hasSub t.data "-USD".data = true →
      tb.rows.getLast? = some (dlast, rlast) → dlast < today →
      ((patchOne today quote tb t).rows = tb.rows ++ [(today, blankRow tb.names t p)] ∧
       ∀ j, j < tb.names.length → tb.names.getD j "" ≠ t →
         (blankRow tb.names t p).getD j none = none)) ∧
    (∀ p dlast rlast, quote t = some p → hasSub t.data "-USD".data = true →
      tb.rows.getLast? = some (dlast, rlast) → ¬ dlast < today →
      ((patchOne today quote tb t).rows.length = tb.rows.length ∧
       (patchOne today quote tb t).rows.getLast? = some (dlast, setAt tb.names t p rlast) ∧
       ∀ j, j < tb.names.length → tb.names.getD j "" ≠ t →
         (setAt tb.names t p rlast).getD j none = rlast.getD j none)) := by
  refine ⟨?_, ?_, ?_⟩
  · intro i hi
    by_cases hg : hasSub t.data "-USD".data = true
    · cases hq : quote t with
      | none => rw [patchOne_quote_none today quote tb t hq]
      | some p =>
        cases hl : tb.rows.getLast? with
        | none => rw [patchOne_last_none today quote tb t hl]
        | some dr =>
          obtain ⟨dlast, rlast⟩ := dr
          by_cases hlt : dlast < today
          · rw [patchOne_append today quote tb t p dlast rlast hq hg hl hlt]
            exact List.getD_append _ _ _ _ (by omega)
          · rw [patchOne_overwrite today quote tb t p dlast rlast hq hg hl hlt]
            have hdl : i < tb.rows.dropLast.length := by
              rw [List.length_dropLast]; omega
            show (tb.rows.dropLast ++ _).getD i (0, []) = _
            rw [List.getD_append _ _ _ _ hdl]
            rw [List.getD_eq_getElem _ _ hdl, List.getD_eq_getElem _ _ (by omega : i < tb.rows.length)]
            exact List.getElem_dropLast tb.rows i hdl
    · rw [patchOne_guard_false today quote tb t (by simpa using hg)]
  · intro p dlast rlast hq hg hl hlt
    refine ⟨?_, ?_⟩
    · rw [patchOne_append today quote tb t p dlast rlast hq hg hl hlt]
    · intro j hj hne
      rw [blankRow_getD tb.names t p j hj, if_neg hne]
  · intro p dlast rlast hq hg hl hlt
    have hnil : tb.rows ≠ [] := by
      intro hn
      rw [hn] at hl
      exact Option.noConfusion hl
    have hmem : (dlast, rlast) ∈ tb.rows := by
      rcases List.getLast?_eq_some_iff.mp hl with ⟨ys, hys⟩
      rw [hys]
      exact List.mem_append_right ys (List.mem_singleton_self _)
    have hrl : rlast.length = tb.names.length := hwf (dlast, rlast) hmem
    have hpos : 0 < tb.rows.length := List.length_pos.mpr hnil
    rw [patchOne_overwrite today quote tb t p dlast rlast hq hg hl hlt]
    refine ⟨?_, ?_, ?_⟩
    · show (tb.rows.dropLast ++ _).length = _
      rw [List.length_append, List.length_dropLast]
      simp
      omega
    · exact List.getLast?_concat _
    · intro j hj hne
      rw [setAt_getD tb.names t p rlast j hj (by omega), if_neg hne]

/-- Witness for C10: overwriting `BTC-USD` in a two-column table leaves
the `SPY` cell of the last row unchanged. -/
theorem C10_witness :
    (patchOne 5 (fun _ => some 20)
        (RTable.mk ["SPY", "BTC-USD"] [(5, [some 1, some 10])]) "BTC-USD").rows.getLast? =
      some (5, setAt ["SPY", "BTC-USD"] "BTC-USD" 20 [some 1, some 10]) ∧
    (setAt ["SPY", "BTC-USD"] "BTC-USD" 20 [some 1, some 10]).getD 0 none =
      ([some 1, some 10] : List Cell).getD 0 none := by
  have h := C10_frame 5 (fun _ => some 20)
    (RTable.mk ["SPY", "BTC-USD"] [(5, [some 1, some 10])]) "BTC-USD" (by decide)
  have h2 := h.2.2 20 5 [some 1, some 10] rfl (by decide) (by decide) (by omega)
  exact ⟨h2.2.1, h2.2.2 0 (by decide) (by decide)⟩

/-- C9 counterexample: the raw input `"tsla"` consists of characters
outside the allow-list of uppercase alphanumerics plus `. - = ^` (its
letters are lowercase), so the claim says it is rejected with the
watchlist unchanged.  The code instead strips and uppercases the input
before validating, so with the validity probe affirming, `TSLA` is added
to the watchlist and no error is set. -/
theorem C9_counterexample :
    ("tsla".data.all allowedChar = false) ∧
    (add_ticker 0 (fun _ => true) (AppState.mk [] [] "tsla" "" 0)).ticker_list = ["TSLA"] ∧
    (add_ticker 0 (fun _ => true) (AppState.mk [] [] "tsla" "" 0)).selected_assets = ["TSLA"] ∧
    (add_ticker 0 (fun _ => true) (AppState.mk [] [] "tsla" "" 0)).add_ticker_error = "" := by
  refine ⟨by decide, by decide, by decide, by decide⟩

/-- C9 (corrected): for every input whose stripped, uppercased form is
nonempty and either contains a separator character (comma, space,
semicolon, newline, tab — multi-ticker entry) or fails the allow-list
pattern `^[A-Z0-9.\-=^]+$`, the add-ticker callback rejects it: an error
message is set and the watchlist (ticker list and selected set) is left
unchanged, whatever the validity probe would say. -/
theorem C9_reject_bad_input (now : ℚ) (valid : String → Bool) (s : AppState)
    (hne : upperChars (stripChars s.user_input.data) ≠ [])
    (hbad : sepChars.any
        (fun c => (upperChars (stripChars s.user_input.data)).contains c) = true
      ∨ (upperChars (stripChars s.user_input.data)).all allowedChar = false) :
    (add_ticker now valid s).ticker_list = s.ticker_list ∧
    (add_ticker now valid s).selected_assets = s.selected_assets ∧
    (add_ticker now valid s).add_ticker_error ≠ "" := by
  simp only [add_ticker]
  set n := upperChars (stripChars s.user_input.data) with hn
  have h0 : ¬ (String.mk n = "") := by
    intro h
    apply hne
    simpa using congrArg String.data h
  rw [if_neg h0]
  by_cases hsep : sepChars.any (fun c => (String.mk n).data.contains c) = true
  · rw [if_pos hsep]
    refine ⟨rfl, rfl, ?_⟩
    show ("Enter exactly ONE ticker (no commas or spaces)." : String) ≠ ""
    decide
  · rw [if_neg hsep]
    have hall : n.all allowedChar = false := by
      rcases hbad with h | h
      · exact absurd h hsep
      · exact h
    have hre : (! ticker_re_match (String.mk n).data) = true := by
      show (! ticker_re_match n) = true
      rw [ticker_re_match, hall, Bool.and_false]
      rfl
    rw [if_pos hre]
    refine ⟨rfl, rfl, ?_⟩
    show ("Ticker contains invalid characters." : String) ≠ ""
    decide

/-- Witness for C9's corrected statement at the spec's scenario input
`"TSLA, IBM"`. -/
theorem C9_witness :
    (add_ticker 0 (fun _ => true) (AppState.mk ["SPY"] ["SPY"] "TSLA, IBM" "" 0)).ticker_list =
      ["SPY"] ∧
    (add_ticker 0 (fun _ => true)
        (AppState.mk ["SPY"] ["SPY"] "TSLA, IBM" "" 0)).selected_assets = ["SPY"] ∧
    (add_ticker 0 (fun _ => true)
        (AppState.mk ["SPY"] ["SPY"] "TSLA, IBM" "" 0)).add_ticker_error ≠ "" :=
  C9_reject_bad_input 0 (fun _ => true) (AppState.mk ["SPY"] ["SPY"] "TSLA, IBM" "" 0)
    (by decide) (Or.inl (by decide))
